/-
  Verification of the scopus-ai-crawler core: multi-source acquisition,
  identity-resolution/merge, reference expansion and session tracking.

  The definitions below are a shallow embedding of the TypeScript sources:
    * src/crawler/paper-crawler.ts  (PaperCrawler: crawl, searchAllAPIs,
      deduplicatePapers, normalizeTitle, mergePaperData, followReferences,
      savePaperWithRelation, filterExistingPapers)
    * src/database/schema.ts       (lowdb-backed store helpers)
    * src/api/base-client.ts       (BaseApiClient rate-limit interceptor)
    * src/types/paper.ts           (data model)
  JavaScript Maps/Sets are modelled by association lists / first-occurrence
  deduplicated lists, numbers by Nat, optional (possibly `undefined`) fields
  by Option, and promise rejection by Except.
-/
import Mathlib

namespace ScopusCrawler

/-! ## Generic list helpers used to model JS Map / Set / find semantics -/

/-- First element of the list satisfying a decidable predicate
(models JS `Array.prototype.find`). -/
def firstWhere {α : Type} (P : α → Prop) [DecidablePred P] : List α → Option α
  | [] => none
  | x :: xs => if P x then some x else firstWhere P xs

/-- First-occurrence deduplication with an explicit list of already-seen
elements; `dedupAcc seen l` keeps those elements of `l` not in `seen`,
in order of first occurrence. Models iterating a JS `Set`. -/
def dedupAcc {α : Type} [DecidableEq α] (seen : List α) : List α → List α
  | [] => []
  | x :: xs => if x ∈ seen then dedupAcc seen xs else x :: dedupAcc (seen ++ [x]) xs

/-- The element list of `new Set(l)` in JS: first occurrences, in order. -/
def jsSetList {α : Type} [DecidableEq α] (l : List α) : List α := dedupAcc [] l

/-- List-of-characters prefix test. -/
def charsStart : List Char → List Char → Bool
  | [], _ => true
  | _ :: _, [] => false
  | a :: asl, b :: bs => a == b && charsStart asl bs

/-- Substring occurrence test on character lists. -/
def charsContain (needle : List Char) : List Char → Bool
  | [] => charsStart needle []
  | c :: rest => charsStart needle (c :: rest) || charsContain needle rest

/-- Models JS `String.prototype.includes`. -/
def strContains (s pat : String) : Bool := charsContain pat.toList s.toList

/-- ASCII lower-casing of a string (models `String.prototype.toLowerCase`
on the ASCII fragment that identity keys use). -/
def lowerStr (s : String) : String := ⟨s.toList.map Char.toLower⟩

/-! ## Data model (src/types/paper.ts) -/

structure Author where
  name : String
  affiliation : Option String := none
  orcid : Option String := none
deriving DecidableEq, Repr

inductive PaperSource
  | scopus
  | semantic_scholar
  | openalex
  | crossref
deriving DecidableEq, Repr

structure Paper where
  id : String
  doi : Option String := none
  scopusId : Option String := none
  semanticScholarId : Option String := none
  openAlexId : Option String := none
  title : String
  authors : List Author := []
  abstract : Option String := none
  keywords : List String := []
  publicationDate : Option String := none
  journal : Option String := none
  volume : Option String := none
  issue : Option String := none
  pages : Option String := none
  publisher : Option String := none
  citationCount : Nat := 0
  referenceCount : Nat := 0
  influentialCitationCount : Option Nat := none
  pdfUrl : Option String := none
  openAccessUrl : Option String := none
  publisherUrl : Option String := none
  references : List String := []
  source : PaperSource := .scopus
  discoveredAt : String := ""
  lastUpdated : String := ""
deriving DecidableEq, Repr

inductive ReadingDecision
  | must_read
  | should_read
  | maybe_read
  | skip
deriving DecidableEq, Repr

/-- AI analysis record; only the fields the crawler core reads are modelled
(the numeric relevance scores are floating point and no claim depends on
them). -/
structure AIAnalysis where
  paperId : String
  readingDecision : ReadingDecision := .maybe_read
  readingReason : String := ""
deriving DecidableEq, Repr

inductive QueryStatus
  | pending
  | running
  | completed
  | failed
deriving DecidableEq, Repr

structure SearchQuery where
  id : String
  keywords : List String := []
  field : Option String := none
  dateFrom : Option String := none
  dateTo : Option String := none
  minCitations : Option Nat := none
  includeReferences : Bool := false
  maxReferenceDepth : Nat := 0
  createdAt : String := ""
  status : QueryStatus := .pending
  paperCount : Nat := 0
deriving DecidableEq, Repr

inductive SessionStatus
  | running
  | completed
  | failed
deriving DecidableEq, Repr

structure CrawlSession where
  id : String
  queryId : String
  startedAt : String := ""
  completedAt : Option String := none
  status : SessionStatus := .running
  papersFound : Nat := 0
  papersAnalyzed : Nat := 0
  errors : List String := []
deriving DecidableEq, Repr

/-! ## Title normalization and identity keys (paper-crawler.ts 158-187) -/

/-- JS `\s` whitespace class restricted to its ASCII members. -/
def isWsChar (c : Char) : Bool :=
  c == ' ' || c == '\t' || c == '\n' || c == '\r' || c == '\x0b' || c == '\x0c'

/-- Characters kept by the regex `[^a-z0-9\s]` deletion (after lower-casing). -/
def keepChar (c : Char) : Bool :=
  ('a' ≤ c && c ≤ 'z') || ('0' ≤ c && c ≤ '9') || isWsChar c

/-- `replace(/\s+/g, ' ')`: every maximal whitespace run becomes one space.
The boolean argument records whether the previous character was whitespace. -/
def collapseWs : Bool → List Char → List Char
  | _, [] => []
  | prevWs, c :: rest =>
    if isWsChar c then
      if prevWs then collapseWs true rest else ' ' :: collapseWs true rest
    else c :: collapseWs false rest

/-- `String.prototype.trim` on the whitespace class above. -/
def trimWs (l : List Char) : List Char :=
  ((l.dropWhile isWsChar).reverse.dropWhile isWsChar).reverse

/-- PaperCrawler.normalizeTitle: lower-case, strip `[^a-z0-9\s]`, collapse
whitespace runs to single spaces, trim. -/
def normalizeTitle (title : String) : String :=
  ⟨trimWs (collapseWs false ((title.toList.map Char.toLower).filter keepChar))⟩

/-- The deduplication identity key computed inside
PaperCrawler.deduplicatePapers: lower-cased DOI when the DOI is truthy
(`if (paper.doi)` — present and non-empty), else the normalized title. -/
def dedupKey (p : Paper) : String :=
  match p.doi with
  | some d =>
    if d = "" then "title:" ++ normalizeTitle p.title
    else "doi:" ++ lowerStr d
  | none => "title:" ++ normalizeTitle p.title

/-! ## Field-level merge (PaperCrawler.mergePaperData, lines 189-228) -/

/-- JS falsiness of an optional string field (`undefined` or `""`). -/
def strFalsy : Option String → Bool
  | none => true
  | some s => s == ""

/-- One `if (!existing.f && newPaper.f) existing.f = newPaper.f` assignment. -/
def optFill (a b : Option String) : Option String :=
  if strFalsy a && !strFalsy b then b else a

/-- PaperCrawler.mergePaperData as a pure function returning the updated
`existing` record. `Array.from(new Set(existing ++ incoming))` is
`jsSetList`. -/
def mergePaperData (existing newPaper : Paper) : Paper :=
  { existing with
    abstract := optFill existing.abstract newPaper.abstract
    doi := optFill existing.doi newPaper.doi
    scopusId := optFill existing.scopusId newPaper.scopusId
    semanticScholarId := optFill existing.semanticScholarId newPaper.semanticScholarId
    openAlexId := optFill existing.openAlexId newPaper.openAlexId
    citationCount :=
      if newPaper.citationCount > existing.citationCount then newPaper.citationCount
      else existing.citationCount
    references := jsSetList (existing.references ++ newPaper.references)
    keywords := jsSetList (existing.keywords ++ newPaper.keywords)
    pdfUrl := optFill existing.pdfUrl newPaper.pdfUrl
    openAccessUrl := optFill existing.openAccessUrl newPaper.openAccessUrl }

/-! ## Deduplication (PaperCrawler.deduplicatePapers, lines 158-179)

The JS `Map` keyed by identity key is modelled as an association list in
insertion order; `seen.get(key)` followed by in-place `mergePaperData`
updates the entry under that key. -/

/-- Processing one paper against the map state. -/
def dedupStep (seen : List (String × Paper)) (p : Paper) : List (String × Paper) :=
  if dedupKey p ∈ seen.map Prod.fst then
    seen.map (fun e => if e.1 = dedupKey p then (e.1, mergePaperData e.2 p) else e)
  else
    seen ++ [(dedupKey p, p)]

/-- PaperCrawler.deduplicatePapers: fold the input through the map and
return the values in insertion order (`Array.from(seen.values())`). -/
def deduplicatePapers (papers : List Paper) : List Paper :=
  (papers.foldl dedupStep []).map Prod.snd

/-! ## Rate-limit retry interceptor (src/api/base-client.ts, lines 27-42)

One logical request through `BaseApiClient` is modelled by the sequence of
responses the provider would give to the successive HTTP attempts.  A 429
response carries the optional parsed `retry-after` header (seconds); the
interceptor waits `retry-after` (or the default 5) seconds and re-issues
the request through the same client, re-entering the same interceptor. -/

inductive Resp
  | ok (data : String)
  | rateLimited (retryAfter : Option Nat)
  | err (msg : String)
deriving DecidableEq, Repr

inductive ApiOutcome
  | success (data : String)
  | failure (msg : String)
  | hung
deriving DecidableEq, Repr

/-- Seconds waited for one 429 response: `parseInt(headers['retry-after'] || '5')`. -/
def retryDelay (retryAfter : Option Nat) : Nat := retryAfter.getD 5

/-- Runs one logical request against the modelled response sequence,
returning the outcome surfaced to the caller together with the list of
delays (in seconds) performed by the 429 handler, in order.  `hung` is the
model artifact for an exhausted response list and never occurs for
sequences ending in a non-429 response. -/
def runRequest : List Resp → ApiOutcome × List Nat
  | [] => (.hung, [])
  | .ok d :: _ => (.success d, [])
  | .err m :: _ => (.failure m, [])
  | .rateLimited ra :: rest =>
    let r := runRequest rest
    (r.1, retryDelay ra :: r.2)

/-- Is a response a provider rate limit? -/
def is429 : Resp → Bool
  | .rateLimited _ => true
  | _ => false

/-- Delay the interceptor performs for a response (only meaningful on 429s). -/
def respDelay : Resp → Nat
  | .rateLimited ra => retryDelay ra
  | _ => 0

/-- Outcome of the first non-429 response, if any. -/
def firstSettled : List Resp → ApiOutcome
  | [] => .hung
  | .ok d :: _ => .success d
  | .err m :: _ => .failure m
  | .rateLimited _ :: rest => firstSettled rest

/-! ## Persistent store (src/database/schema.ts) -/

structure PaperQueryLink where
  paperId : String
  queryId : String
  depth : Nat
deriving DecidableEq, Repr

/-- The lowdb JSON database contents. -/
structure DB where
  papers : List Paper := []
  analyses : List AIAnalysis := []
  queries : List SearchQuery := []
  sessions : List CrawlSession := []
  paperQueries : List PaperQueryLink := []
deriving DecidableEq, Repr

/-- schema.ts findPaperByDOI: first paper with `p.doi === doi`
(case-sensitive; an absent `doi` never matches). -/
def findPaperByDOI (db : DB) (doi : String) : Option Paper :=
  firstWhere (fun p => p.doi = some doi) db.papers

/-- schema.ts findPaperByTitle: first paper whose title is exactly equal. -/
def findPaperByTitle (db : DB) (title : String) : Option Paper :=
  firstWhere (fun p => p.title = title) db.papers

/-- Replace the first element matching the predicate, else append
(models `findIndex` + assignment-or-push). -/
def upsertBy {α : Type} (P : α → Prop) [DecidablePred P] (x : α) : List α → List α
  | [] => [x]
  | y :: ys => if P y then x :: ys else y :: upsertBy P x ys

/-- schema.ts savePaper: upsert keyed on `id`. -/
def savePaper (db : DB) (paper : Paper) : DB :=
  { db with papers := upsertBy (fun p => p.id = paper.id) paper db.papers }

/-- schema.ts saveAnalysis: upsert keyed on `paperId`. -/
def saveAnalysis (db : DB) (analysis : AIAnalysis) : DB :=
  { db with analyses := upsertBy (fun a => a.paperId = analysis.paperId) analysis db.analyses }

/-- schema.ts saveSession: upsert keyed on `id`. -/
def saveSession (db : DB) (session : CrawlSession) : DB :=
  { db with sessions := upsertBy (fun s => s.id = session.id) session db.sessions }

/-- schema.ts updateQuery specialised to the `{status, paperCount}` updates
the crawler performs: mutate the first query with a matching id, if any. -/
def updateQueryList (id : String) (st : QueryStatus) (cnt : Nat) :
    List SearchQuery → List SearchQuery
  | [] => []
  | q :: qs =>
    if q.id = id then { q with status := st, paperCount := cnt } :: qs
    else q :: updateQueryList id st cnt qs

def updateQuery (db : DB) (id : String) (st : QueryStatus) (cnt : Nat) : DB :=
  { db with queries := updateQueryList id st cnt db.queries }

/-- schema.ts linkPaperToQuery: push `(paperId, queryId, depth)` only when
no entry with the same `(paperId, queryId)` pair exists. -/
def linkPaperToQuery (db : DB) (paperId queryId : String) (depth : Nat) : DB :=
  if ∃ pq ∈ db.paperQueries, pq.paperId = paperId ∧ pq.queryId = queryId then db
  else { db with paperQueries := db.paperQueries ++ [⟨paperId, queryId, depth⟩] }

/-- schema.ts getPapersForQuery: papers whose id is linked to the query. -/
def getPapersForQuery (db : DB) (queryId : String) : List Paper :=
  let paperIds := (db.paperQueries.filter (fun pq => pq.queryId = queryId)).map
    PaperQueryLink.paperId
  db.papers.filter (fun p => p.id ∈ paperIds)

/-! ## Crawler orchestration (PaperCrawler, paper-crawler.ts)

External effects are supplied through an environment: the four adapter
search calls settle to either a paper list or an error
(`Promise.allSettled`); `SemanticScholarClient.searchByDOI` and
`getPaperDetails` catch their own errors and return null, hence
`Option Paper`; the generative classification capability (spec boundary
for GeminiAnalyzer) may fail, hence `Except`; timestamps and the session
UUID are inputs. -/

structure CrawlEnv where
  sessionId : String
  now : String
  scopusResult : Except String (List Paper)
  semanticResult : Except String (List Paper)
  openAlexResult : Except String (List Paper)
  crossRefResult : Except String (List Paper)
  fetchByDOI : String → Option Paper
  fetchById : String → Option Paper
  quickScreen : Paper → Except String Bool
  batchAnalyze : List Paper → Except String (List AIAnalysis)

/-- One settled adapter result contributes its papers on success and
nothing on failure (paper-crawler.ts lines 126-153). -/
def settledPapers : Except String (List Paper) → List Paper
  | .ok ps => ps
  | .error _ => []

/-- PaperCrawler.searchAllAPIs: concatenation of the successful adapters'
results in the fixed invocation order Scopus, Semantic Scholar, OpenAlex,
CrossRef. -/
def searchAllAPIs (env : CrawlEnv) : List Paper :=
  settledPapers env.scopusResult ++ settledPapers env.semanticResult ++
    settledPapers env.openAlexResult ++ settledPapers env.crossRefResult

/-- The store reconciliation lookup of savePaperWithRelation (lines
311-313): by DOI when the DOI is truthy (`paper.doi ? findPaperByDOI(...)
: null` — an empty string skips the lookup), falling back to exact
title. -/
def lookupExisting (db : DB) (paper : Paper) : Option Paper :=
  (match paper.doi with
    | some d => if d = "" then none else findPaperByDOI db d
    | none => none) <|> findPaperByTitle db paper.title

/-- PaperCrawler.savePaperWithRelation (lines 310-325): reconcile against
the store by DOI, then by exact title; merge into the persisted record and
refresh `lastUpdated`, or insert as new; then link to the query.
`mergePaperData` leaves `id` untouched, so the merged record is saved and
linked under `existing.id` exactly as in the source. -/
def savePaperWithRelation (now : String) (db : DB) (paper : Paper)
    (queryId : String) (depth : Nat) : DB :=
  match lookupExisting db paper with
  | some existing =>
    linkPaperToQuery
      (savePaper db { mergePaperData existing paper with lastUpdated := now })
      existing.id queryId depth
  | none =>
    linkPaperToQuery (savePaper db paper) paper.id queryId depth

/-- PaperCrawler.filterExistingPapers (lines 327-343): keep papers with no
store match by DOI (when the DOI is truthy — `if (paper.doi)` skips the
lookup for an empty string) nor by exact title. -/
def filterExistingPapers (db : DB) (papers : List Paper) : List Paper :=
  papers.filter (fun p =>
    (match p.doi with
     | some d => if d = "" then true else (findPaperByDOI db d).isNone
     | none => true)
    && (findPaperByTitle db p.title).isNone)

/-- The candidate reference set of one BFS level (lines 240-245): up to 10
references per paper, unioned through a `Set` in iteration order. -/
def refsOfLevel (papers : List Paper) : List String :=
  jsSetList (papers.flatMap (fun p => p.references.take 10))

/-- The fetch loop of followReferences (lines 252-267): DOI-like candidates
(containing a slash or `10.`) go through `searchByDOI`; on a miss (or for
other candidates) 40-character ids go through `getPaperDetails`; failures
are dropped. -/
def fetchRefs (env : CrawlEnv) : List String → List Paper
  | [] => []
  | ref :: rest =>
    let byDOI :=
      if strContains ref "/" || strContains ref "10." then env.fetchByDOI ref
      else none
    match byDOI with
    | some p => p :: fetchRefs env rest
    | none =>
      if ref.length = 40 then
        match env.fetchById ref with
        | some p => p :: fetchRefs env rest
        | none => fetchRefs env rest
      else fetchRefs env rest

/-- PaperCrawler.followReferences (lines 230-286), with the recursion depth
gap `maxReferenceDepth + 1 - currentDepth` made an explicit structural
argument so the function reduces.  Whenever
`fuel = maxReferenceDepth + 1 - currentDepth` the zero-fuel branch
coincides with the `currentDepth > maxReferenceDepth` guard, so
`followReferences` below is exactly the source recursion. -/
def followRefsGo (env : CrawlEnv) (query : SearchQuery) :
    Nat → List Paper → CrawlSession → DB → Nat → CrawlSession × DB
  | 0, _, session, db, _ => (session, db)
  | fuel + 1, papers, session, db, currentDepth =>
    if currentDepth > query.maxReferenceDepth then (session, db)
    else
      let refsToFetch := (refsOfLevel papers).take 50
      let fetchedPapers := fetchRefs env refsToFetch
      if fetchedPapers.length > 0 then
        let uniqueRefs := deduplicatePapers fetchedPapers
        let newRefs := filterExistingPapers db uniqueRefs
        let db1 := newRefs.foldl
          (fun d p => savePaperWithRelation env.now d p query.id currentDepth) db
        let session1 := { session with papersFound := session.papersFound + newRefs.length }
        let db2 := saveSession db1 session1
        if currentDepth < query.maxReferenceDepth ∧ newRefs.length > 0 then
          followRefsGo env query fuel newRefs session1 db2 (currentDepth + 1)
        else (session1, db2)
      else (session, db)

def followReferences (env : CrawlEnv) (query : SearchQuery) (papers : List Paper)
    (session : CrawlSession) (db : DB) (currentDepth : Nat) : CrawlSession × DB :=
  followRefsGo env query (query.maxReferenceDepth + 1 - currentDepth)
    papers session db currentDepth

/-- The quick-screening loop of PaperCrawler.analyzePapers (lines 289-296):
sequential screening, keeping papers whose screen says analyze; a failure
of the capability aborts the phase with that error. -/
def screenLoop (env : CrawlEnv) : List Paper → Except String (List Paper)
  | [] => .ok []
  | p :: rest => do
    let shouldAnalyze ← env.quickScreen p
    let more ← screenLoop env rest
    .ok (if shouldAnalyze then p :: more else more)

/-- PaperCrawler.analyzePapers (lines 288-308): screen, batch-analyze, save
each analysis counting it, save the session. -/
def analyzePapers (env : CrawlEnv) (papers : List Paper) (session : CrawlSession)
    (db : DB) : Except String (CrawlSession × DB) := do
  let toAnalyze ← screenLoop env papers
  let analyses ← env.batchAnalyze toAnalyze
  let db1 := analyses.foldl saveAnalysis db
  let session1 := { session with papersAnalyzed := session.papersAnalyzed + analyses.length }
  .ok (session1, saveSession db1 session1)

/-- The tail of PaperCrawler.crawl after phase 4: phase 5 (analysis of all
papers linked to the query) and the success/catch bookkeeping of lines
71-92.  On success the session completes; if the phase throws, the error
message is appended to the session's errors, session and query are marked
failed, and the same error is re-raised. -/
def finishCrawl (env : CrawlEnv) (query : SearchQuery) (session2 : CrawlSession)
    (dbD : DB) : Except String CrawlSession × DB :=
  match analyzePapers env (getPapersForQuery dbD query.id) session2 dbD with
  | .ok (session3, dbE) =>
    let session4 := { session3 with status := .completed, completedAt := some env.now }
    let dbF := updateQuery (saveSession dbE session4) query.id .completed session4.papersFound
    (.ok session4, dbF)
  | .error e =>
    let sessionF := { session2 with
      errors := session2.errors ++ [e]
      status := .failed
      completedAt := some env.now }
    let dbF := updateQuery (saveSession dbD sessionF) query.id .failed sessionF.papersFound
    (.error e, dbF)

/-- PaperCrawler.crawl (lines 36-93).  Phases 1-4 are total in this model
(adapter failures are settled, reference fetches return null on failure,
store writes are in-memory); the analysis phase delegates to the external
classification capability and is the fallible step. -/
def crawl (env : CrawlEnv) (query : SearchQuery) (db : DB) :
    Except String CrawlSession × DB :=
  let session0 : CrawlSession :=
    { id := env.sessionId, queryId := query.id, startedAt := env.now,
      completedAt := none, status := .running, papersFound := 0,
      papersAnalyzed := 0, errors := [] }
  let dbA := saveSession db session0
  let initialPapers := searchAllAPIs env
  let uniquePapers := deduplicatePapers initialPapers
  let dbB := uniquePapers.foldl
    (fun d p => savePaperWithRelation env.now d p query.id 0) dbA
  let session1 := { session0 with papersFound := uniquePapers.length }
  let dbC := saveSession dbB session1
  let step4 :=
    if query.includeReferences ∧ query.maxReferenceDepth > 0 then
      followReferences env query uniquePapers session1 dbC 1
    else (session1, dbC)
  finishCrawl env query step4.1 step4.2

/-! ## Specification-side characterizations (for the deduplication claim) -/

/-- The seen-set after `dedupAcc seen l` has processed `l`. -/
def seenAfter {α : Type} [DecidableEq α] (seen : List α) : List α → List α
  | [] => seen
  | x :: xs => if x ∈ seen then seenAfter seen xs else seenAfter (seen ++ [x]) xs

/-- Spec-side: the identity keys of the input, in order of first occurrence. -/
def firstKeys (papers : List Paper) : List String :=
  jsSetList (papers.map dedupKey)

/-- Spec-side: fold a same-key group into its first element by merging every
later member into it, in encounter order. -/
def mergeGroup : List Paper → Option Paper
  | [] => none
  | h :: t => some (t.foldl mergePaperData h)

/-- Spec-side restatement of deduplication: one output paper per identity
key, in order of first occurrence, each obtained by merging the key's
group into its first member. -/
def dedupSpec (papers : List Paper) : List Paper :=
  (firstKeys papers).filterMap
    (fun k => mergeGroup (papers.filter (fun p => dedupKey p = k)))

/-- How the papers still to be processed extend one association entry of the
deduplication map: all of their same-key papers get merged into it. -/
def extendEntry (ps : List Paper) (e : String × Paper) : String × Paper :=
  (e.1, (ps.filter (fun p => dedupKey p = e.1)).foldl mergePaperData e.2)

/-- The association entry produced for a fresh key from the papers under it. -/
def groupEntry (ps : List Paper) (k : String) : Option (String × Paper) :=
  (mergeGroup (ps.filter (fun p => dedupKey p = k))).map (fun q => (k, q))

/-- Number of link-store entries for a given `(paperId, queryId)` pair. -/
def linkCount (l : List PaperQueryLink) (pid qid : String) : Nat :=
  (l.filter (fun pq => pq.paperId = pid ∧ pq.queryId = qid)).length

/-! ## Concrete data used by scenario theorems and witnesses -/

/-- Source A's record in the spec's merge scenario. -/
def paperA : Paper :=
  { id := "a-id", doi := some "10.1/abc", title := "Quantum Computing Advances",
    citationCount := 5 }

/-- Source B's record in the spec's merge scenario: same DOI up to case,
higher citation count, abstract present. -/
def paperB : Paper :=
  { id := "b-id", doi := some "10.1/ABC", title := "Quantum computing advances.",
    citationCount := 12, abstract := some "An abstract from source B" }

/-- A DOI-less paper with a punctuated, mixed-case title. -/
def paperDL : Paper := { id := "dl1", title := "Deep Learning, 2020!" }

/-- A DOI-less paper with the same title already normalized. -/
def paperDl : Paper := { id := "dl2", title := "deep learning 2020" }

/-- A paper whose references list contains a duplicate entry. -/
def paperDup : Paper :=
  { id := "dup-id", title := "Duplicated References", references := ["10.1/r", "10.1/r"] }

/-- A paper whose DOI field is present but holds the empty string (falsy
in JS). -/
def paperEmptyDoi : Paper :=
  { id := "ed-id", doi := some "", title := "Empty Doi Paper" }

/-- Cycle scenario: X cites Y. -/
def paperX : Paper :=
  { id := "x-id", doi := some "10.1/x", title := "Paper X",
    references := ["10.1/y"], citationCount := 3 }

/-- Cycle scenario: Y cites X back. -/
def paperY : Paper :=
  { id := "y-id", doi := some "10.1/y", title := "Paper Y",
    references := ["10.1/x"], citationCount := 4 }

/-- Environment for the cycle scenario: every adapter is down, reference
lookups resolve the two DOIs of the cycle, analysis succeeds trivially. -/
def cycleEnv : CrawlEnv :=
  { sessionId := "s1", now := "t0",
    scopusResult := .error "scopus down", semanticResult := .error "s2 down",
    openAlexResult := .error "openalex down", crossRefResult := .error "crossref down",
    fetchByDOI := fun s =>
      if s = "10.1/y" then some paperY else if s = "10.1/x" then some paperX else none,
    fetchById := fun _ => none,
    quickScreen := fun _ => .ok true,
    batchAnalyze := fun ps => .ok (ps.map (fun p => { paperId := p.id })) }

/-- Reference-following query with `maxReferenceDepth = 2`. -/
def cycleQuery : SearchQuery :=
  { id := "q1", keywords := ["quantum", "computing"], maxReferenceDepth := 2,
    includeReferences := true, status := .running }

/-- Store state after the initial search persisted X at depth 0. -/
def cycleDB : DB :=
  { papers := [paperX], queries := [cycleQuery],
    paperQueries := [⟨"x-id", "q1", 0⟩] }

/-- Session for the cycle scenario, after the initial search found X. -/
def cycleSession : CrawlSession :=
  { id := "s1", queryId := "q1", startedAt := "t0", papersFound := 1 }

/-- Environment where additionally no reference lookup resolves. -/
def allFailEnv : CrawlEnv :=
  { cycleEnv with fetchByDOI := fun _ => none }

/-- Environment whose classification capability always fails. -/
def throwEnv : CrawlEnv :=
  { cycleEnv with batchAnalyze := fun _ => .error "classification capability down" }

/-- Persisted paper whose DOI is upper-cased. -/
def storedPaper : Paper :=
  { id := "stored-id", doi := some "10.1/ABC", title := "A Stored Paper",
    citationCount := 7 }

/-- Freshly fetched paper: same DOI up to case, different exact title. -/
def freshPaper : Paper :=
  { id := "fresh-id", doi := some "10.1/abc", title := "A stored paper",
    citationCount := 9 }

/-- Store holding only the upper-cased-DOI paper. -/
def storeDB : DB := { papers := [storedPaper] }

/-! ## Lemmas about first-occurrence deduplication (`dedupAcc`) -/

theorem mem_dedupAcc {α : Type} [DecidableEq α] (x : α) (l : List α) :
    ∀ seen : List α, x ∈ dedupAcc seen l ↔ x ∈ l ∧ x ∉ seen := by
  induction l with
  | nil => intro seen; simp [dedupAcc]
  | cons y ys ih =>
    intro seen
    by_cases hy : y ∈ seen
    · rw [dedupAcc, if_pos hy, ih]
      simp only [List.mem_cons]
      constructor
      · rintro ⟨hx, hns⟩; exact ⟨Or.inr hx, hns⟩
      · rintro ⟨hx | hx, hns⟩
        · exact absurd (hx ▸ hy) hns
        · exact ⟨hx, hns⟩
    · rw [dedupAcc, if_neg hy]
      simp only [List.mem_cons, ih, List.mem_append, List.mem_singleton]
      by_cases hxy : x = y
      · subst hxy; simp [hy]
      · simp [hxy]

theorem mem_jsSetList {α : Type} [DecidableEq α] (x : α) (l : List α) :
    x ∈ jsSetList l ↔ x ∈ l := by
  rw [jsSetList, mem_dedupAcc]; simp

theorem not_mem_seen_of_mem_dedupAcc {α : Type} [DecidableEq α] {x : α}
    {l seen : List α} (h : x ∈ dedupAcc seen l) : x ∉ seen :=
  ((mem_dedupAcc x l seen).mp h).2

theorem nodup_dedupAcc {α : Type} [DecidableEq α] (l : List α) :
    ∀ seen : List α, (dedupAcc seen l).Nodup := by
  induction l with
  | nil => intro seen; simp [dedupAcc]
  | cons y ys ih =>
    intro seen
    by_cases hy : y ∈ seen
    · rw [dedupAcc, if_pos hy]; exact ih seen
    · rw [dedupAcc, if_neg hy]
      refine List.nodup_cons.mpr ⟨fun hmem => ?_, ih (seen ++ [y])⟩
      exact not_mem_seen_of_mem_dedupAcc hmem (by simp)

theorem dedupAcc_append {α : Type} [DecidableEq α] (xs ys : List α) :
    ∀ seen : List α,
      dedupAcc seen (xs ++ ys) = dedupAcc seen xs ++ dedupAcc (seenAfter seen xs) ys := by
  induction xs with
  | nil => intro seen; simp [dedupAcc, seenAfter]
  | cons x xs ih =>
    intro seen
    by_cases hx : x ∈ seen
    · rw [List.cons_append, dedupAcc, if_pos hx, dedupAcc, if_pos hx, seenAfter, if_pos hx]
      exact ih seen
    · rw [List.cons_append, dedupAcc, if_neg hx, dedupAcc, if_neg hx, seenAfter, if_neg hx]
      rw [ih (seen ++ [x]), List.cons_append]

theorem mem_seenAfter_of_mem_seen {α : Type} [DecidableEq α] {x : α}
    (l : List α) : ∀ seen : List α, x ∈ seen → x ∈ seenAfter seen l := by
  induction l with
  | nil => intro seen h; simpa [seenAfter] using h
  | cons y ys ih =>
    intro seen h
    by_cases hy : y ∈ seen
    · rw [seenAfter, if_pos hy]; exact ih seen h
    · rw [seenAfter, if_neg hy]; exact ih (seen ++ [y]) (by simp [h])

theorem mem_seenAfter_of_mem {α : Type} [DecidableEq α] {x : α}
    {l : List α} (hx : x ∈ l) : ∀ seen : List α, x ∈ seenAfter seen l := by
  induction l with
  | nil => cases hx
  | cons y ys ih =>
    intro seen
    by_cases hy : y ∈ seen
    · rw [seenAfter, if_pos hy]
      rcases List.mem_cons.mp hx with hxy | hxys
      · exact mem_seenAfter_of_mem_seen ys seen (hxy ▸ hy)
      · exact ih hxys seen
    · rw [seenAfter, if_neg hy]
      rcases List.mem_cons.mp hx with hxy | hxys
      · exact mem_seenAfter_of_mem_seen ys (seen ++ [y]) (by simp [hxy])
      · exact ih hxys (seen ++ [y])

theorem dedupAcc_eq_nil {α : Type} [DecidableEq α] {l : List α} :
    ∀ seen : List α, (∀ x ∈ l, x ∈ seen) → dedupAcc seen l = [] := by
  induction l with
  | nil => intro seen _; rfl
  | cons y ys ih =>
    intro seen h
    rw [dedupAcc, if_pos (h y (by simp))]
    exact ih seen (fun x hx => h x (by simp [hx]))

theorem dedupAcc_eq_self {α : Type} [DecidableEq α] {l : List α} (hnd : l.Nodup) :
    ∀ seen : List α, (∀ x ∈ l, x ∉ seen) → dedupAcc seen l = l := by
  induction l with
  | nil => intro seen _; rfl
  | cons y ys ih =>
    intro seen h
    rw [dedupAcc, if_neg (h y (by simp))]
    congr 1
    refine ih (List.nodup_cons.mp hnd).2 (seen ++ [y]) (fun x hx => ?_)
    simp only [List.mem_append, List.mem_singleton]
    rintro (hs | rfl)
    · exact h x (by simp [hx]) hs
    · exact (List.nodup_cons.mp hnd).1 hx

theorem jsSetList_self_append {α : Type} [DecidableEq α] {l : List α}
    (hnd : l.Nodup) : jsSetList (l ++ l) = l := by
  rw [jsSetList, dedupAcc_append]
  rw [dedupAcc_eq_self hnd [] (by simp)]
  rw [dedupAcc_eq_nil (seenAfter [] l) (fun x hx => mem_seenAfter_of_mem hx [])]
  simp

/-! ## Lemmas about the field-level merge policy -/

theorem optFill_self (a : Option String) : optFill a a = a := by
  unfold optFill
  cases h : strFalsy a <;> simp [h]

theorem optFill_of_not_falsy {a : Option String} (h : strFalsy a = false)
    (b : Option String) : optFill a b = a := by
  simp [optFill, h]

theorem optFill_none_of_not_falsy {b : Option String} (h : strFalsy b = false) :
    optFill none b = b := by
  unfold optFill
  rw [h]
  rfl

theorem strFalsy_some_ne {s : String} (h : s ≠ "") : strFalsy (some s) = false := by
  simpa [strFalsy] using h

theorem merge_citationCount (a b : Paper) :
    (mergePaperData a b).citationCount = max a.citationCount b.citationCount := by
  simp only [mergePaperData]
  split <;> omega

theorem merge_keywords_sup (a b : Paper) {x : String}
    (hx : x ∈ a.keywords ∨ x ∈ b.keywords) : x ∈ (mergePaperData a b).keywords := by
  simp only [mergePaperData]
  rw [mem_jsSetList]
  simpa using hx

theorem merge_references_sup (a b : Paper) {x : String}
    (hx : x ∈ a.references ∨ x ∈ b.references) : x ∈ (mergePaperData a b).references := by
  simp only [mergePaperData]
  rw [mem_jsSetList]
  simpa using hx

/-- Merging a paper into itself only re-encodes the keyword and reference
lists through a set; with duplicate-free lists it is the identity. -/
theorem merge_self_of_nodup {p : Paper} (hkw : p.keywords.Nodup)
    (href : p.references.Nodup) : mergePaperData p p = p := by
  unfold mergePaperData
  rw [optFill_self, optFill_self, optFill_self, optFill_self, optFill_self,
    optFill_self, optFill_self, jsSetList_self_append hkw, jsSetList_self_append href]
  simp

/-! ## Characterization of `deduplicatePapers` -/

theorem extendEntry_cons_eq {p : Paper} {e : String × Paper} (h : e.1 = dedupKey p)
    (rest : List Paper) :
    extendEntry (p :: rest) e = extendEntry rest (e.1, mergePaperData e.2 p) := by
  unfold extendEntry
  have ht : (dedupKey p = e.1) = True := eq_true h.symm
  simp [List.filter_cons, ht]

theorem extendEntry_cons_ne {p : Paper} {e : String × Paper} (h : e.1 ≠ dedupKey p)
    (rest : List Paper) : extendEntry (p :: rest) e = extendEntry rest e := by
  unfold extendEntry
  have hf : (dedupKey p = e.1) = False := eq_false (fun hc => h hc.symm)
  simp [List.filter_cons, hf]

theorem groupEntry_cons_eq (p : Paper) (rest : List Paper) :
    groupEntry (p :: rest) (dedupKey p) = some (extendEntry rest (dedupKey p, p)) := by
  unfold groupEntry extendEntry mergeGroup
  rw [List.filter_cons]
  simp

theorem groupEntry_cons_ne {p : Paper} {k : String} (h : k ≠ dedupKey p)
    (rest : List Paper) : groupEntry (p :: rest) k = groupEntry rest k := by
  unfold groupEntry
  have hf : (dedupKey p = k) = False := eq_false (fun hc => h hc.symm)
  simp [List.filter_cons, hf]

theorem foldl_dedupStep_spec (ps : List Paper) :
    ∀ seen : List (String × Paper), (seen.map Prod.fst).Nodup →
      ps.foldl dedupStep seen =
        seen.map (extendEntry ps) ++
          (dedupAcc (seen.map Prod.fst) (ps.map dedupKey)).filterMap (groupEntry ps) := by
  induction ps with
  | nil =>
    intro seen _
    have hme : seen.map (extendEntry []) = seen := by
      have h1 : seen.map (extendEntry []) = seen.map id :=
        List.map_congr_left (fun e _ => by simp [extendEntry])
      rw [h1, List.map_id]
    simp [dedupAcc, hme]
  | cons p rest ih =>
    intro seen hnd
    rw [List.foldl_cons]
    by_cases hk : dedupKey p ∈ seen.map Prod.fst
    · have hstep : dedupStep seen p =
          seen.map (fun e => if e.1 = dedupKey p then (e.1, mergePaperData e.2 p) else e) := by
        rw [dedupStep, if_pos hk]
      have hkeys : (seen.map
          (fun e => if e.1 = dedupKey p then (e.1, mergePaperData e.2 p) else e)).map Prod.fst
          = seen.map Prod.fst := by
        rw [List.map_map]
        refine List.map_congr_left (fun e _ => ?_)
        by_cases he : e.1 = dedupKey p <;> simp [he]
      rw [hstep, ih _ (by rw [hkeys]; exact hnd), hkeys]
      have hfirst : (seen.map
          (fun e => if e.1 = dedupKey p then (e.1, mergePaperData e.2 p) else e)).map
            (extendEntry rest) = seen.map (extendEntry (p :: rest)) := by
        rw [List.map_map]
        refine List.map_congr_left (fun e _ => ?_)
        by_cases he : e.1 = dedupKey p
        · simp only [Function.comp_apply, if_pos he]
          rw [extendEntry_cons_eq he]
        · simp only [Function.comp_apply, if_neg he]
          rw [extendEntry_cons_ne he]
      have hacc : dedupAcc (seen.map Prod.fst) ((p :: rest).map dedupKey)
          = dedupAcc (seen.map Prod.fst) (rest.map dedupKey) := by
        rw [List.map_cons, dedupAcc, if_pos hk]
      have hsecond : (dedupAcc (seen.map Prod.fst) (rest.map dedupKey)).filterMap
            (groupEntry rest)
          = (dedupAcc (seen.map Prod.fst) (rest.map dedupKey)).filterMap
            (groupEntry (p :: rest)) := by
        refine (List.filterMap_congr (fun k hkmem => ?_)).symm
        have hkne : k ≠ dedupKey p :=
          fun h => (not_mem_seen_of_mem_dedupAcc hkmem) (h ▸ hk)
        exact groupEntry_cons_ne hkne rest
      rw [hfirst, hsecond, hacc]
    · have hstep : dedupStep seen p = seen ++ [(dedupKey p, p)] := by
        rw [dedupStep, if_neg hk]
      have hkeys : ((seen ++ [(dedupKey p, p)]).map Prod.fst)
          = seen.map Prod.fst ++ [dedupKey p] := by simp
      have hnd' : (((seen ++ [(dedupKey p, p)]).map Prod.fst)).Nodup := by
        rw [hkeys, List.nodup_append]
        refine ⟨hnd, List.nodup_singleton _, fun a ha => ?_⟩
        simp only [List.mem_singleton]
        intro hak
        exact hk (hak ▸ ha)
      rw [hstep, ih _ hnd', hkeys]
      have hacc : dedupAcc (seen.map Prod.fst) ((p :: rest).map dedupKey)
          = dedupKey p :: dedupAcc (seen.map Prod.fst ++ [dedupKey p]) (rest.map dedupKey) := by
        rw [List.map_cons, dedupAcc, if_neg hk]
      have hfirst : seen.map (extendEntry (p :: rest)) = seen.map (extendEntry rest) := by
        refine List.map_congr_left (fun e he => ?_)
        have hene : e.1 ≠ dedupKey p := by
          intro hc
          exact hk (hc ▸ List.mem_map_of_mem Prod.fst he)
        exact extendEntry_cons_ne hene rest
      have hsecond : (dedupAcc (seen.map Prod.fst ++ [dedupKey p]) (rest.map dedupKey)).filterMap
            (groupEntry (p :: rest))
          = (dedupAcc (seen.map Prod.fst ++ [dedupKey p]) (rest.map dedupKey)).filterMap
            (groupEntry rest) := by
        refine List.filterMap_congr (fun k hkmem => ?_)
        have hkne : k ≠ dedupKey p := by
          intro hc
          exact (not_mem_seen_of_mem_dedupAcc hkmem) (by simp [hc])
        exact groupEntry_cons_ne hkne rest
      rw [hacc, hfirst, List.filterMap_cons, groupEntry_cons_eq, hsecond]
      rw [List.map_append]
      simp [extendEntry]

/-- PaperCrawler.deduplicatePapers agrees with the spec's description:
the output lists, per identity key in order of first appearance, the fold
of the merge policy over that key's papers in encounter order. -/
theorem deduplicatePapers_eq_dedupSpec (papers : List Paper) :
    deduplicatePapers papers = dedupSpec papers := by
  rw [deduplicatePapers, foldl_dedupStep_spec papers [] (by simp)]
  rw [dedupSpec, firstKeys, jsSetList]
  simp only [List.map_nil, List.nil_append, List.map_filterMap]
  refine List.filterMap_congr (fun k _ => ?_)
  rw [groupEntry]
  cases mergeGroup (papers.filter (fun p => dedupKey p = k)) <;> simp

theorem string_append_left_cancel {a x y : String} (h : a ++ x = a ++ y) : x = y := by
  have h2 := congrArg (fun s : String => s.data) h
  simp at h2
  exact String.ext h2

theorem doi_key_ne_title_key (x y : String) : "doi:" ++ x ≠ "title:" ++ y := by
  intro h
  have h2 := congrArg (fun s : String => s.data) h
  simp at h2

theorem lowerStr_eq_empty {s : String} (h : lowerStr s = "") : s = "" := by
  cases s with
  | mk d =>
    cases d with
    | nil => rfl
    | cons c cs =>
      have h2 := congrArg (fun s : String => s.data) h
      simp [lowerStr, String.toList] at h2

theorem dedupKey_doi {p : Paper} {d : String} (hp : p.doi = some d) (hd : d ≠ "") :
    dedupKey p = "doi:" ++ lowerStr d := by
  simp only [dedupKey, hp]
  rw [if_neg hd]

theorem dedupKey_title_none {p : Paper} (hp : p.doi = none) :
    dedupKey p = "title:" ++ normalizeTitle p.title := by
  simp only [dedupKey, hp]

theorem dedupKey_title_empty {p : Paper} (hp : p.doi = some "") :
    dedupKey p = "title:" ++ normalizeTitle p.title := by
  simp only [dedupKey, hp]
  rw [if_pos trivial]

/-- Merging a same-key paper never changes the identity key. -/
theorem dedupKey_merge {a b : Paper} (h : dedupKey a = dedupKey b) :
    dedupKey (mergePaperData a b) = dedupKey a := by
  have hdoi : (mergePaperData a b).doi = optFill a.doi b.doi := rfl
  have htitle : (mergePaperData a b).title = a.title := rfl
  cases ha : a.doi with
  | some d =>
    by_cases hd : d = ""
    · subst hd
      cases hb : b.doi with
      | none =>
        have hm : (mergePaperData a b).doi = some "" := by
          rw [hdoi, ha, hb]
          rfl
        rw [dedupKey_title_empty hm, dedupKey_title_empty ha, htitle]
      | some e =>
        by_cases he : e = ""
        · subst he
          have hm : (mergePaperData a b).doi = some "" := by
            rw [hdoi, ha, hb]
            rfl
          rw [dedupKey_title_empty hm, dedupKey_title_empty ha, htitle]
        · exfalso
          rw [dedupKey_title_empty ha, dedupKey_doi hb he] at h
          exact doi_key_ne_title_key (lowerStr e) (normalizeTitle a.title) h.symm
    · have hm : (mergePaperData a b).doi = some d := by
        rw [hdoi, ha]
        exact optFill_of_not_falsy (strFalsy_some_ne hd) _
      rw [dedupKey_doi hm hd, dedupKey_doi ha hd]
  | none =>
    cases hb : b.doi with
    | none =>
      have hm : (mergePaperData a b).doi = none := by
        rw [hdoi, ha, hb]
        rfl
      rw [dedupKey_title_none hm, dedupKey_title_none ha, htitle]
    | some e =>
      by_cases he : e = ""
      · subst he
        have hm : (mergePaperData a b).doi = none := by
          rw [hdoi, ha, hb]
          rfl
        rw [dedupKey_title_none hm, dedupKey_title_none ha, htitle]
      · exfalso
        rw [dedupKey_title_none ha, dedupKey_doi hb he] at h
        exact doi_key_ne_title_key (lowerStr e) (normalizeTitle a.title) h.symm

theorem foldl_merge_key {k : String} : ∀ (t : List Paper) (h : Paper),
    dedupKey h = k → (∀ p ∈ t, dedupKey p = k) →
      dedupKey (t.foldl mergePaperData h) = k := by
  intro t
  induction t with
  | nil => intro h hh _; simpa using hh
  | cons b t ih =>
    intro h hh ht
    rw [List.foldl_cons]
    refine ih (mergePaperData h b) ?_ (fun p hp => ht p (by simp [hp]))
    rw [dedupKey_merge (by rw [hh, ht b (by simp)])]
    exact hh

theorem mergeGroup_key {k : String} {ps : List Paper} (hps : ∀ p ∈ ps, dedupKey p = k)
    {q : Paper} (hq : mergeGroup ps = some q) : dedupKey q = k := by
  cases ps with
  | nil => cases hq
  | cons h t =>
    simp only [mergeGroup, Option.some.injEq] at hq
    subst hq
    exact foldl_merge_key t h (hps h (by simp)) (fun p hp => hps p (by simp [hp]))

theorem dedupSpec_keys (papers : List Paper) :
    ∀ l : List String, l.Nodup →
      ((l.filterMap
          (fun k => mergeGroup (papers.filter (fun p => dedupKey p = k)))).map dedupKey).Nodup
        ∧ ∀ q ∈ l.filterMap
            (fun k => mergeGroup (papers.filter (fun p => dedupKey p = k))),
            dedupKey q ∈ l := by
  intro l
  induction l with
  | nil => simp
  | cons k ks ih =>
    intro hnd
    obtain ⟨hk, hks⟩ := List.nodup_cons.mp hnd
    obtain ⟨ih1, ih2⟩ := ih hks
    have keyfact : ∀ q, mergeGroup (papers.filter (fun p => dedupKey p = k)) = some q →
        dedupKey q = k := by
      intro q hq
      refine mergeGroup_key (fun p hp => ?_) hq
      exact of_decide_eq_true (List.mem_filter.mp hp).2
    cases hmg : mergeGroup (papers.filter (fun p => dedupKey p = k)) with
    | none =>
      rw [List.filterMap_cons, hmg]
      exact ⟨ih1, fun q hq => by simp [ih2 q hq]⟩
    | some q0 =>
      rw [List.filterMap_cons, hmg]
      have hq0 : dedupKey q0 = k := keyfact q0 hmg
      constructor
      · rw [List.map_cons, List.nodup_cons]
        refine ⟨fun hmem => ?_, ih1⟩
        obtain ⟨q, hq, hqk⟩ := List.mem_map.mp hmem
        have hmemks := ih2 q hq
        rw [hqk, hq0] at hmemks
        exact hk hmemks
      · intro q hq
        rcases List.mem_cons.mp hq with rfl | hq'
        · simp [hq0]
        · simp [ih2 q hq']

/-- The identity keys of the deduplicated output are pairwise distinct:
exactly one output paper per identity key. -/
theorem deduplicatePapers_keys_nodup (papers : List Paper) :
    ((deduplicatePapers papers).map dedupKey).Nodup := by
  rw [deduplicatePapers_eq_dedupSpec, dedupSpec]
  exact (dedupSpec_keys papers (firstKeys papers) (nodup_dedupAcc _ _)).1

/-! ## The rate-limit interceptor retries on every 429, not exactly once -/

theorem runRequest_spec (rs : List Resp) :
    runRequest rs = (firstSettled rs, (rs.takeWhile is429).map respDelay) := by
  induction rs with
  | nil => rfl
  | cons r rest ih =>
    cases r with
    | ok d => rfl
    | err m => rfl
    | rateLimited ra =>
      simp [runRequest, firstSettled, ih, List.takeWhile_cons, is429, respDelay]

/-! ## Store-operation projection lemmas -/

theorem savePaper_paperQueries (db : DB) (p : Paper) :
    (savePaper db p).paperQueries = db.paperQueries := rfl

theorem savePaper_queries (db : DB) (p : Paper) :
    (savePaper db p).queries = db.queries := rfl

theorem savePaper_sessions (db : DB) (p : Paper) :
    (savePaper db p).sessions = db.sessions := rfl

theorem saveSession_papers (db : DB) (s : CrawlSession) :
    (saveSession db s).papers = db.papers := rfl

theorem saveSession_paperQueries (db : DB) (s : CrawlSession) :
    (saveSession db s).paperQueries = db.paperQueries := rfl

theorem saveSession_queries (db : DB) (s : CrawlSession) :
    (saveSession db s).queries = db.queries := rfl

theorem saveAnalysis_queries (db : DB) (a : AIAnalysis) :
    (saveAnalysis db a).queries = db.queries := rfl

theorem updateQuery_sessions (db : DB) (id : String) (st : QueryStatus) (cnt : Nat) :
    (updateQuery db id st cnt).sessions = db.sessions := rfl

theorem linkPaperToQuery_papers (db : DB) (pid qid : String) (dep : Nat) :
    (linkPaperToQuery db pid qid dep).papers = db.papers := by
  unfold linkPaperToQuery
  split <;> rfl

theorem linkPaperToQuery_queries (db : DB) (pid qid : String) (dep : Nat) :
    (linkPaperToQuery db pid qid dep).queries = db.queries := by
  unfold linkPaperToQuery
  split <;> rfl

theorem linkPaperToQuery_sessions (db : DB) (pid qid : String) (dep : Nat) :
    (linkPaperToQuery db pid qid dep).sessions = db.sessions := by
  unfold linkPaperToQuery
  split <;> rfl

theorem savePaperWithRelation_queries (now : String) (db : DB) (p : Paper)
    (qid : String) (dep : Nat) :
    (savePaperWithRelation now db p qid dep).queries = db.queries := by
  unfold savePaperWithRelation
  cases lookupExisting db p <;>
    simp only [linkPaperToQuery_queries, savePaper_queries]

theorem savePaperWithRelation_sessions (now : String) (db : DB) (p : Paper)
    (qid : String) (dep : Nat) :
    (savePaperWithRelation now db p qid dep).sessions = db.sessions := by
  unfold savePaperWithRelation
  cases lookupExisting db p <;>
    simp only [linkPaperToQuery_sessions, savePaper_sessions]

/-! ## Link-store lemmas -/

theorem mem_linkPaperToQuery {db : DB} {pid qid : String} {dep : Nat}
    {link : PaperQueryLink}
    (h : link ∈ (linkPaperToQuery db pid qid dep).paperQueries) :
    link ∈ db.paperQueries ∨ link = ⟨pid, qid, dep⟩ := by
  unfold linkPaperToQuery at h
  split at h
  · exact Or.inl h
  · simp only [List.mem_append, List.mem_singleton] at h
    exact h

theorem mem_linkPaperToQuery_of_mem {db : DB} {pid qid : String} {dep : Nat}
    {link : PaperQueryLink} (h : link ∈ db.paperQueries) :
    link ∈ (linkPaperToQuery db pid qid dep).paperQueries := by
  unfold linkPaperToQuery
  split
  · exact h
  · simp [h]

/-- Re-linking an already linked `(paperId, queryId)` pair leaves the whole
store unchanged; in particular the recorded depth is never rewritten. -/
theorem linkPaperToQuery_existing {db : DB} {pid qid : String} (dep : Nat)
    (h : ∃ pq ∈ db.paperQueries, pq.paperId = pid ∧ pq.queryId = qid) :
    linkPaperToQuery db pid qid dep = db := by
  unfold linkPaperToQuery
  rw [if_pos h]

theorem linkCount_linkPaperToQuery {db : DB} (pid qid : String) (dep : Nat)
    (hinv : ∀ p q, linkCount db.paperQueries p q ≤ 1) :
    ∀ p q, linkCount (linkPaperToQuery db pid qid dep).paperQueries p q ≤ 1 := by
  intro p q
  unfold linkPaperToQuery
  split
  · exact hinv p q
  · rename_i hex
    show linkCount (db.paperQueries ++ [⟨pid, qid, dep⟩]) p q ≤ 1
    unfold linkCount
    rw [List.filter_append, List.length_append]
    by_cases hpq : p = pid ∧ q = qid
    · have hl : (db.paperQueries.filter
          (fun pq => pq.paperId = p ∧ pq.queryId = q)).length = 0 := by
        rw [List.length_eq_zero, List.filter_eq_nil_iff]
        intro a ha
        simp only [decide_eq_true_eq, not_and]
        intro h1 h2
        exact hex ⟨a, ha, hpq.1 ▸ h1, hpq.2 ▸ h2⟩
      rw [hl, Nat.zero_add]
      exact le_trans (List.length_filter_le _ _) (by simp)
    · have hs : (([⟨pid, qid, dep⟩] : List PaperQueryLink).filter
          (fun pq => pq.paperId = p ∧ pq.queryId = q)).length = 0 := by
        rw [List.length_eq_zero, List.filter_eq_nil_iff]
        intro a ha
        simp only [List.mem_singleton] at ha
        subst ha
        simp only [decide_eq_true_eq, not_and]
        intro h1 h2
        exact hpq ⟨h1.symm, h2.symm⟩
      rw [hs, Nat.add_zero]
      exact hinv p q

/-! ## Links created by persistence and reference expansion -/

theorem mem_savePaperWithRelation {now : String} {db : DB} {paper : Paper}
    {qid : String} {dep : Nat} {link : PaperQueryLink}
    (h : link ∈ (savePaperWithRelation now db paper qid dep).paperQueries) :
    link ∈ db.paperQueries ∨ (link.queryId = qid ∧ link.depth = dep) := by
  unfold savePaperWithRelation at h
  cases hlk : lookupExisting db paper <;> rw [hlk] at h <;>
  · rcases mem_linkPaperToQuery h with hin | rfl
    · rw [savePaper_paperQueries] at hin
      exact Or.inl hin
    · exact Or.inr ⟨rfl, rfl⟩

theorem mem_foldl_savePaperWithRelation {now qid : String} {dep : Nat} :
    ∀ (ps : List Paper) (db : DB) (link : PaperQueryLink),
      link ∈ (ps.foldl
        (fun d p => savePaperWithRelation now d p qid dep) db).paperQueries →
      link ∈ db.paperQueries ∨ (link.queryId = qid ∧ link.depth = dep) := by
  intro ps
  induction ps with
  | nil => intro db link h; exact Or.inl h
  | cons p ps ih =>
    intro db link h
    rw [List.foldl_cons] at h
    rcases ih _ link h with hin | hd
    · exact mem_savePaperWithRelation hin
    · exact Or.inr hd

theorem followRefsGo_links (env : CrawlEnv) (query : SearchQuery) :
    ∀ (fuel : Nat) (papers : List Paper) (session : CrawlSession) (db : DB)
      (d : Nat) (link : PaperQueryLink),
      link ∈ (followRefsGo env query fuel papers session db d).2.paperQueries →
      link ∈ db.paperQueries ∨
        (link.queryId = query.id ∧ d ≤ link.depth ∧
          link.depth ≤ query.maxReferenceDepth) := by
  intro fuel
  induction fuel with
  | zero => intro papers session db d link h; exact Or.inl h
  | succ fuel ih =>
    intro papers session db d link h
    simp only [followRefsGo] at h
    split at h
    · exact Or.inl h
    · rename_i hguard
      split at h
      · split at h
        · rename_i hrec
          rcases ih _ _ _ _ link h with hin | hprop
          · rw [saveSession_paperQueries] at hin
            rcases mem_foldl_savePaperWithRelation _ _ link hin with hin2 | hd
            · exact Or.inl hin2
            · exact Or.inr ⟨hd.1, by omega, by omega⟩
          · exact Or.inr ⟨hprop.1, by omega, hprop.2.2⟩
        · rw [saveSession_paperQueries] at h
          rcases mem_foldl_savePaperWithRelation _ _ link h with hin2 | hd
          · exact Or.inl hin2
          · exact Or.inr ⟨hd.1, by omega, by omega⟩
      · exact Or.inl h

/-! ## Preservation and shape lemmas for the crawl pipeline -/

theorem foldl_savePaperWithRelation_queries {now qid : String} {dep : Nat} :
    ∀ (ps : List Paper) (db : DB),
      (ps.foldl (fun d p => savePaperWithRelation now d p qid dep) db).queries
        = db.queries := by
  intro ps
  induction ps with
  | nil => intro db; rfl
  | cons p ps ih =>
    intro db
    rw [List.foldl_cons, ih, savePaperWithRelation_queries]

theorem followRefsGo_queries (env : CrawlEnv) (query : SearchQuery) :
    ∀ (fuel : Nat) (papers : List Paper) (session : CrawlSession) (db : DB) (d : Nat),
      (followRefsGo env query fuel papers session db d).2.queries = db.queries := by
  intro fuel
  induction fuel with
  | zero => intro papers session db d; rfl
  | succ fuel ih =>
    intro papers session db d
    simp only [followRefsGo]
    split
    · rfl
    · split
      · split
        · rw [ih, saveSession_queries, foldl_savePaperWithRelation_queries]
        · show (saveSession _ _).queries = db.queries
          rw [saveSession_queries, foldl_savePaperWithRelation_queries]
      · rfl

theorem followRefsGo_session_shape (env : CrawlEnv) (query : SearchQuery) :
    ∀ (fuel : Nat) (papers : List Paper) (session : CrawlSession) (db : DB) (d : Nat),
      ∃ n, (followRefsGo env query fuel papers session db d).1
        = { session with papersFound := n } := by
  intro fuel
  induction fuel with
  | zero =>
    intro papers session db d
    exact ⟨session.papersFound, rfl⟩
  | succ fuel ih =>
    intro papers session db d
    simp only [followRefsGo]
    split
    · exact ⟨session.papersFound, rfl⟩
    · split
      · split
        · obtain ⟨n, hn⟩ := ih _ _ _ _
          exact ⟨n, hn⟩
        · exact ⟨_, rfl⟩
      · exact ⟨session.papersFound, rfl⟩

theorem mem_upsertBy_self {α : Type} (P : α → Prop) [DecidablePred P] (x : α) :
    ∀ l : List α, x ∈ upsertBy P x l := by
  intro l
  induction l with
  | nil => simp [upsertBy]
  | cons y ys ih =>
    unfold upsertBy
    split
    · simp
    · simp [ih]

theorem session_mem_saveSession (db : DB) (s : CrawlSession) :
    s ∈ (saveSession db s).sessions :=
  mem_upsertBy_self _ s db.sessions

theorem updateQueryList_found {id : String} {st : QueryStatus} {cnt : Nat} :
    ∀ l : List SearchQuery, (∃ q ∈ l, q.id = id) →
      ∃ q' ∈ updateQueryList id st cnt l,
        q'.id = id ∧ q'.status = st ∧ q'.paperCount = cnt := by
  intro l
  induction l with
  | nil => rintro ⟨q, hq, _⟩; cases hq
  | cons q qs ih =>
    rintro ⟨q0, hq0, hid⟩
    unfold updateQueryList
    split
    · rename_i hq
      exact ⟨{ q with status := st, paperCount := cnt }, by simp, hq, rfl, rfl⟩
    · rename_i hq
      rcases List.mem_cons.mp hq0 with rfl | htl
      · exact absurd hid hq
      · obtain ⟨q', hq', hprops⟩ := ih ⟨q0, htl, hid⟩
        exact ⟨q', by simp [hq'], hprops⟩

theorem updateQuery_found (db : DB) {id : String} (st : QueryStatus) (cnt : Nat)
    (h : ∃ q ∈ db.queries, q.id = id) :
    ∃ q' ∈ (updateQuery db id st cnt).queries,
      q'.id = id ∧ q'.status = st ∧ q'.paperCount = cnt :=
  updateQueryList_found db.queries h

theorem followRefsGo_nil_papers (env : CrawlEnv) (query : SearchQuery)
    (fuel : Nat) (s : CrawlSession) (db : DB) (d : Nat) :
    followRefsGo env query fuel [] s db d = (s, db) := by
  cases fuel with
  | zero => rfl
  | succ fuel =>
    simp only [followRefsGo]
    have hfr : fetchRefs env ((refsOfLevel []).take 50) = [] := rfl
    rw [hfr]
    simp

theorem finishCrawl_spec (env : CrawlEnv) (query : SearchQuery)
    (s2 : CrawlSession) (dbD : DB) :
    (∃ s db', finishCrawl env query s2 dbD = (.ok s, db') ∧ s.status = .completed) ∨
    (∃ e, finishCrawl env query s2 dbD =
      (.error e,
        updateQuery (saveSession dbD
            { s2 with
              errors := s2.errors ++ [e]
              status := .failed
              completedAt := some env.now })
          query.id .failed s2.papersFound)) := by
  unfold finishCrawl
  cases h : analyzePapers env (getPapersForQuery dbD query.id) s2 dbD with
  | ok p =>
    obtain ⟨session3, dbE⟩ := p
    exact Or.inl ⟨_, _, rfl, rfl⟩
  | error e => exact Or.inr ⟨e, rfl⟩

/-- Session-tracker property of `finishCrawl`: on any phase-4 state whose
session carries the crawl's id and whose store carries the caller's
queries, the run ends in exactly one of `completed` or `failed`; in the
failed case the persisted session records the error and the stored query
is marked failed. -/
theorem finishCrawl_terminal (env : CrawlEnv) (query : SearchQuery) (db : DB)
    (s2 : CrawlSession) (dbD : DB) (hid : s2.id = env.sessionId)
    (hq : dbD.queries = db.queries) :
    (∃ s db', finishCrawl env query s2 dbD = (.ok s, db') ∧ s.status = .completed) ∨
    (∃ e db', finishCrawl env query s2 dbD = (.error e, db') ∧
      (∃ s ∈ db'.sessions, s.id = env.sessionId ∧ s.status = .failed ∧
        s.errors.getLast? = some e) ∧
      ((∃ q0 ∈ db.queries, q0.id = query.id) →
        ∃ q' ∈ db'.queries, q'.id = query.id ∧ q'.status = .failed)) := by
  rcases finishCrawl_spec env query s2 dbD with hok | ⟨e, herr⟩
  · exact Or.inl hok
  · refine Or.inr ⟨e, _, herr, ?_, ?_⟩
    · refine ⟨{ s2 with
        errors := s2.errors ++ [e]
        status := .failed
        completedAt := some env.now }, ?_, hid, rfl, by simp⟩
      rw [updateQuery_sessions]
      exact session_mem_saveSession _ _
    · intro hex
      obtain ⟨q', hq', hprops⟩ := updateQuery_found (saveSession dbD
        { s2 with
          errors := s2.errors ++ [e]
          status := .failed
          completedAt := some env.now }) .failed s2.papersFound
        (by rw [saveSession_queries, hq]; exact hex)
      exact ⟨q', hq', hprops.1, hprops.2.1⟩

theorem crawl_terminal_general (env : CrawlEnv) (query : SearchQuery) (db : DB) :
    (∃ s db', crawl env query db = (.ok s, db') ∧ s.status = .completed) ∨
    (∃ e db', crawl env query db = (.error e, db') ∧
      (∃ s ∈ db'.sessions, s.id = env.sessionId ∧ s.status = .failed ∧
        s.errors.getLast? = some e) ∧
      ((∃ q0 ∈ db.queries, q0.id = query.id) →
        ∃ q' ∈ db'.queries, q'.id = query.id ∧ q'.status = .failed)) := by
  simp only [crawl]
  refine finishCrawl_terminal env query db _ _ ?_ ?_
  · split
    · simp only [followReferences]
      obtain ⟨n, hn⟩ := followRefsGo_session_shape env query _ _ _ _ _
      rw [hn]
    · rfl
  · split
    · simp only [followReferences]
      rw [followRefsGo_queries, saveSession_queries,
        foldl_savePaperWithRelation_queries, saveSession_queries]
    · rw [saveSession_queries, foldl_savePaperWithRelation_queries, saveSession_queries]

theorem getPapersForQuery_no_links {db : DB} {qid : String}
    (h : ∀ pq ∈ db.paperQueries, pq.queryId ≠ qid) :
    getPapersForQuery db qid = [] := by
  unfold getPapersForQuery
  have hf : db.paperQueries.filter (fun pq => pq.queryId = qid) = [] := by
    rw [List.filter_eq_nil_iff]
    intro a ha
    simpa using h a ha
  rw [hf]
  simp

/-- C2: if all four adapter search calls fail, the crawl still terminates
with session status `completed` and `papersFound = 0` — adapter failures
each contribute zero papers and are never fatal by themselves.  The query
is fresh (no pre-existing links) and the classification capability
succeeds trivially on the empty paper set. -/
theorem adapter_failures_not_fatal (env : CrawlEnv) (query : SearchQuery) (db : DB)
    (h1 : ∃ e, env.scopusResult = .error e)
    (h2 : ∃ e, env.semanticResult = .error e)
    (h3 : ∃ e, env.openAlexResult = .error e)
    (h4 : ∃ e, env.crossRefResult = .error e)
    (hfresh : ∀ pq ∈ db.paperQueries, pq.queryId ≠ query.id)
    (hcap : env.batchAnalyze [] = .ok []) :
    ∃ s db', crawl env query db = (.ok s, db') ∧
      s.status = .completed ∧ s.papersFound = 0 := by
  obtain ⟨e1, he1⟩ := h1
  obtain ⟨e2, he2⟩ := h2
  obtain ⟨e3, he3⟩ := h3
  obtain ⟨e4, he4⟩ := h4
  have hsearch : searchAllAPIs env = [] := by
    unfold searchAllAPIs
    rw [he1, he2, he3, he4]
    rfl
  have hdd : deduplicatePapers [] = [] := rfl
  have hgp : ∀ (s s' : CrawlSession),
      getPapersForQuery (saveSession (saveSession db s) s') query.id = [] := by
    intro s s'
    exact getPapersForQuery_no_links (fun pq hpq => hfresh pq hpq)
  have han : ∀ (s : CrawlSession) (db0 : DB),
      analyzePapers env [] s db0 = .ok (s, saveSession db0 s) := by
    intro s db0
    have step : analyzePapers env [] s db0 =
        env.batchAnalyze [] >>= fun analyses =>
          Except.ok ({ s with papersAnalyzed := s.papersAnalyzed + analyses.length },
            saveSession (analyses.foldl saveAnalysis db0)
              { s with papersAnalyzed := s.papersAnalyzed + analyses.length }) := rfl
    rw [step, hcap]
    rfl
  simp only [crawl, hsearch, hdd, List.foldl_nil, List.length_nil,
    followReferences, followRefsGo_nil_papers, ite_self]
  simp only [finishCrawl, hgp, han]
  exact ⟨_, _, rfl, rfl, rfl⟩

theorem firstWhere_eq_none {α : Type} {P : α → Prop} [DecidablePred P] :
    ∀ {l : List α}, (∀ x ∈ l, ¬ P x) → firstWhere P l = none := by
  intro l
  induction l with
  | nil => intro _; rfl
  | cons y ys ih =>
    intro h
    unfold firstWhere
    rw [if_neg (h y (by simp))]
    exact ih (fun x hx => h x (by simp [hx]))

theorem upsertBy_not_found {α : Type} {P : α → Prop} [DecidablePred P] (x : α) :
    ∀ {l : List α}, (∀ y ∈ l, ¬ P y) → upsertBy P x l = l ++ [x] := by
  intro l
  induction l with
  | nil => intro _; rfl
  | cons y ys ih =>
    intro h
    unfold upsertBy
    rw [if_neg (h y (by simp))]
    rw [ih (fun z hz => h z (by simp [hz]))]
    rfl

/-! # Claim theorems -/

/-- C1: deduplication returns exactly one Paper per identity key; that
Paper is the first of the list with the key, with every later same-key
Paper merged into it in order (`dedupSpec`); an empty scalar field takes
the first later non-empty value while a non-empty one is kept; and on the
concrete scenario `[A, B]` with DOIs equal up to case the output is one
Paper with A's DOI, B's citation count, and B's abstract. -/
theorem dedup_one_paper_per_key_first_wins :
    (∀ papers : List Paper, deduplicatePapers papers = dedupSpec papers)
    ∧ (∀ papers : List Paper, ((deduplicatePapers papers).map dedupKey).Nodup)
    ∧ (∀ a b : Paper, a.abstract = none → strFalsy b.abstract = false →
        (mergePaperData a b).abstract = b.abstract)
    ∧ (∀ a b : Paper, ∀ s, a.abstract = some s → s ≠ "" →
        (mergePaperData a b).abstract = some s)
    ∧ deduplicatePapers [paperA, paperB] = [mergePaperData paperA paperB]
    ∧ (mergePaperData paperA paperB).doi = some "10.1/abc"
    ∧ (mergePaperData paperA paperB).citationCount = 12
    ∧ (mergePaperData paperA paperB).abstract = some "An abstract from source B" := by
  refine ⟨deduplicatePapers_eq_dedupSpec, deduplicatePapers_keys_nodup,
    ?_, ?_, by decide, by decide, by decide, by decide⟩
  · intro a b ha hb
    show optFill a.abstract b.abstract = b.abstract
    rw [ha]
    exact optFill_none_of_not_falsy hb
  · intro a b s hs hne
    show optFill a.abstract b.abstract = some s
    rw [hs]
    exact optFill_of_not_falsy (strFalsy_some_ne hne) _

/-- C1 witness: the fill-if-empty policy at a concrete input. -/
theorem dedup_one_paper_per_key_first_wins_witness :
    (mergePaperData paperDL paperB).abstract = paperB.abstract :=
  dedup_one_paper_per_key_first_wins.2.2.1 paperDL paperB rfl (by decide)

/-- C5 counterexample: a request answered 429, 429, then a non-429 error
performs two delayed retries (output delay list `[5, 5]`), so the adapter
does not retry exactly once before surfacing the failure. -/
theorem rate_limit_retry_counterexample :
    runRequest [Resp.rateLimited none, Resp.rateLimited none, Resp.err "boom"]
        = (.failure "boom", [5, 5])
      ∧ ¬ ((runRequest
        [Resp.rateLimited none, Resp.rateLimited none, Resp.err "boom"]).2.length ≤ 1) := by
  exact ⟨rfl, by decide⟩

/-- C5 (amended): on every 429 response the adapter waits the
provider-specified `retry-after` delay (default 5 seconds) and re-issues
the request through the same interceptor; it repeats this for every
further 429 (retries are unbounded, not exactly one), and surfaces the
first non-429 outcome. -/
theorem rate_limit_retries_every_429 :
    (∀ rs : List Resp,
      runRequest rs = (firstSettled rs, (rs.takeWhile is429).map respDelay))
    ∧ (∀ ra : Option Nat, respDelay (Resp.rateLimited ra) = ra.getD 5)
    ∧ respDelay (Resp.rateLimited none) = 5 :=
  ⟨runRequest_spec, fun _ => rfl, rfl⟩

/-- C6: for same-key Papers the merge is monotone: keyword and reference
sets become supersets of both inputs, citationCount is the maximum, and no
field of the existing record is deleted or reduced (untouched fields are
kept verbatim, non-empty scalar fields are never overwritten). -/
theorem merge_monotone (a b : Paper) (hkey : dedupKey a = dedupKey b) :
    (∀ x, x ∈ a.keywords ∨ x ∈ b.keywords → x ∈ (mergePaperData a b).keywords)
    ∧ (∀ x, x ∈ a.references ∨ x ∈ b.references → x ∈ (mergePaperData a b).references)
    ∧ (mergePaperData a b).citationCount = max a.citationCount b.citationCount
    ∧ a.citationCount ≤ (mergePaperData a b).citationCount
    ∧ (mergePaperData a b).id = a.id
    ∧ (mergePaperData a b).title = a.title
    ∧ (mergePaperData a b).authors = a.authors
    ∧ (mergePaperData a b).referenceCount = a.referenceCount
    ∧ (∀ s, a.abstract = some s → s ≠ "" → (mergePaperData a b).abstract = some s)
    ∧ (∀ s, a.doi = some s → s ≠ "" → (mergePaperData a b).doi = some s)
    ∧ (∀ s, a.scopusId = some s → s ≠ "" → (mergePaperData a b).scopusId = some s)
    ∧ (∀ s, a.semanticScholarId = some s → s ≠ "" →
        (mergePaperData a b).semanticScholarId = some s)
    ∧ (∀ s, a.openAlexId = some s → s ≠ "" → (mergePaperData a b).openAlexId = some s)
    ∧ (∀ s, a.pdfUrl = some s → s ≠ "" → (mergePaperData a b).pdfUrl = some s)
    ∧ (∀ s, a.openAccessUrl = some s → s ≠ "" →
        (mergePaperData a b).openAccessUrl = some s) := by
  refine ⟨fun x hx => merge_keywords_sup a b hx,
    fun x hx => merge_references_sup a b hx,
    merge_citationCount a b,
    by rw [merge_citationCount]; exact Nat.le_max_left _ _,
    rfl, rfl, rfl, rfl, ?_, ?_, ?_, ?_, ?_, ?_, ?_⟩ <;>
  · intro s hs hne
    show optFill _ _ = some s
    rw [hs]
    exact optFill_of_not_falsy (strFalsy_some_ne hne) _

/-- C6 witness: the merge of the scenario Papers takes the maximal
citation count. -/
theorem merge_monotone_witness :
    (mergePaperData paperA paperB).citationCount
      = max paperA.citationCount paperB.citationCount :=
  (merge_monotone paperA paperB (by decide)).2.2.1

/-- C7 counterexample: a Paper whose DOI field is present but empty is
keyed by its normalized title, not by a "doi:" key — the source's
truthiness check `if (paper.doi)` sends an empty-string DOI to the title
branch, so "DOI lower-cased when a DOI is present" fails at this input. -/
theorem identity_key_counterexample :
    paperEmptyDoi.doi = some ""
    ∧ dedupKey paperEmptyDoi ≠ "doi:" ++ lowerStr ""
    ∧ dedupKey paperEmptyDoi = "title:" ++ normalizeTitle paperEmptyDoi.title :=
  ⟨rfl, by decide, by decide⟩

/-- C7 (amended): the identity key equals the DOI lower-cased when a
non-empty DOI is present; when the DOI is absent — or the empty string,
which the source's truthiness check treats as absent — it is the title
lower-cased with punctuation stripped and whitespace collapsed; titles
differing only in case and punctuation, such as "Deep Learning, 2020!"
and "deep learning 2020", yield the same identity key. -/
theorem identity_key_spec (p : Paper) :
    (∀ d, p.doi = some d → d ≠ "" → dedupKey p = "doi:" ++ lowerStr d)
    ∧ (p.doi = none → dedupKey p = "title:" ++ normalizeTitle p.title)
    ∧ (p.doi = some "" → dedupKey p = "title:" ++ normalizeTitle p.title)
    ∧ normalizeTitle "Deep Learning, 2020!" = "deep learning 2020"
    ∧ normalizeTitle "deep learning 2020" = "deep learning 2020"
    ∧ dedupKey paperDL = dedupKey paperDl :=
  ⟨fun _ hd hne => dedupKey_doi hd hne, fun hd => dedupKey_title_none hd,
    fun hd => dedupKey_title_empty hd, by decide, by decide, by decide⟩

/-- C7 witness: the key of the scenario Paper with an upper-cased DOI. -/
theorem identity_key_spec_witness :
    dedupKey paperB = "doi:" ++ lowerStr "10.1/ABC" :=
  (identity_key_spec paperB).1 "10.1/ABC" rfl (by decide)

/-- C9 counterexample: merging a Paper whose references list contains a
duplicate with itself is not a no-op — the merge re-encodes the list
through a set and collapses the duplicate. -/
theorem merge_self_counterexample : mergePaperData paperDup paperDup ≠ paperDup := by
  decide

/-- C9 (amended): merging a Paper with itself is a no-op provided its
keywords and references lists are duplicate-free (as the set-valued data
model intends); otherwise only those two lists change, by losing their
duplicates. -/
theorem merge_self_noop (p : Paper) (hkw : p.keywords.Nodup)
    (href : p.references.Nodup) : mergePaperData p p = p :=
  merge_self_of_nodup hkw href

/-- C9 witness: self-merge is the identity on the scenario Paper. -/
theorem merge_self_noop_witness : mergePaperData paperA paperA = paperA :=
  merge_self_noop paperA (by decide) (by decide)

/-- C2 witness: a concrete crawl whose four adapters are all down
completes with zero papers. -/
theorem adapter_failures_not_fatal_witness :
    ∃ s db', crawl allFailEnv cycleQuery {} = (.ok s, db') ∧
      s.status = .completed ∧ s.papersFound = 0 :=
  adapter_failures_not_fatal allFailEnv cycleQuery {}
    ⟨"scopus down", rfl⟩ ⟨"s2 down", rfl⟩ ⟨"openalex down", rfl⟩ ⟨"crossref down", rfl⟩
    (fun pq hpq => absurd hpq (List.not_mem_nil pq)) rfl

/-- C3: reference expansion, entered at level 1 as in `crawl`, never links
a paper at a BFS level greater than `maxReferenceDepth`: every link added
by `followReferences` carries a depth between the entry level 1 and
`maxReferenceDepth` (a further level runs only below the cap and after new
discoveries, which the bound subsumes). -/
theorem bfs_depth_bounded (env : CrawlEnv) (query : SearchQuery)
    (papers : List Paper) (session : CrawlSession) (db : DB)
    (link : PaperQueryLink)
    (h : link ∈ (followReferences env query papers session db 1).2.paperQueries) :
    link ∈ db.paperQueries ∨
      (link.queryId = query.id ∧ 1 ≤ link.depth ∧
        link.depth ≤ query.maxReferenceDepth) :=
  followRefsGo_links env query _ papers session db 1 link h

/-- C3 witness: in the concrete cycle run the link created for Y is new
and sits at depth 1 ≤ maxReferenceDepth = 2. -/
theorem bfs_depth_bounded_witness :
    (⟨"y-id", "q1", 1⟩ : PaperQueryLink) ∈ cycleDB.paperQueries ∨
      ((⟨"y-id", "q1", 1⟩ : PaperQueryLink).queryId = cycleQuery.id ∧
        1 ≤ (⟨"y-id", "q1", 1⟩ : PaperQueryLink).depth ∧
        (⟨"y-id", "q1", 1⟩ : PaperQueryLink).depth ≤ cycleQuery.maxReferenceDepth) :=
  bfs_depth_bounded cycleEnv cycleQuery [paperX] cycleSession cycleDB
    ⟨"y-id", "q1", 1⟩ (by decide)

/-- C4: the link store keeps at most one entry per `(paperId, queryId)`
pair (`linkPaperToQuery` preserves the invariant, and re-linking an
existing pair leaves the store — including the recorded depth — entirely
unchanged); and in the citation cycle X ↔ Y at `maxDepth = 2` the walk
terminates having added exactly the one link for Y at depth 1 and no link
at depth 2. -/
theorem link_store_unique_pairs :
    (∀ (db : DB) (pid qid : String) (dep : Nat),
      (∀ p q, linkCount db.paperQueries p q ≤ 1) →
      ∀ p q, linkCount (linkPaperToQuery db pid qid dep).paperQueries p q ≤ 1)
    ∧ (∀ (db : DB) (pid qid : String) (dep : Nat),
        (∃ pq ∈ db.paperQueries, pq.paperId = pid ∧ pq.queryId = qid) →
        linkPaperToQuery db pid qid dep = db)
    ∧ (followReferences cycleEnv cycleQuery [paperX] cycleSession cycleDB 1).2.paperQueries
        = [⟨"x-id", "q1", 0⟩, ⟨"y-id", "q1", 1⟩]
    ∧ (followReferences cycleEnv cycleQuery [paperX] cycleSession cycleDB 1).1.papersFound
        = cycleSession.papersFound + 1 :=
  ⟨fun _ pid qid dep h => linkCount_linkPaperToQuery pid qid dep h,
    fun _ _ _ dep h => linkPaperToQuery_existing dep h,
    by decide, by decide⟩

/-- C4 witness: the uniqueness invariant applied to the singleton store of
the cycle scenario. -/
theorem link_store_unique_pairs_witness :
    linkCount (linkPaperToQuery cycleDB "y-id" "q1" 1).paperQueries "y-id" "q1" ≤ 1 :=
  link_store_unique_pairs.1 cycleDB "y-id" "q1" 1
    (fun p q => le_trans (List.length_filter_le _ _) (by decide)) "y-id" "q1"

/-- C8: provided the caller's query is stored (as the CLI and HTTP fronts
do before crawling), every crawl terminates in exactly one of `completed`
or `failed`: on success the returned session is `completed`; if the
analysis phase throws, the error is re-raised to the caller as-is while
the persisted session is `failed` with that error appended last to its
error list, and the stored query's status is `failed`. -/
theorem crawl_terminal_states (env : CrawlEnv) (query : SearchQuery) (db : DB)
    (hq0 : ∃ q0 ∈ db.queries, q0.id = query.id) :
    (∃ s db', crawl env query db = (.ok s, db') ∧ s.status = .completed)
    ∨ (∃ e db', crawl env query db = (.error e, db') ∧
        (∃ s ∈ db'.sessions, s.id = env.sessionId ∧ s.status = .failed ∧
          s.errors.getLast? = some e) ∧
        ∃ q' ∈ db'.queries, q'.id = query.id ∧ q'.status = .failed) := by
  rcases crawl_terminal_general env query db with hok | ⟨e, db', heq, hsess, himp⟩
  · exact Or.inl hok
  · exact Or.inr ⟨e, db', heq, hsess, himp hq0⟩

/-- C8 witness: with a failing classification capability a concrete crawl
terminates (in the failed branch of the disjunction). -/
theorem crawl_terminal_states_witness :
    (∃ s db', crawl throwEnv cycleQuery cycleDB = (.ok s, db') ∧ s.status = .completed)
    ∨ (∃ e db', crawl throwEnv cycleQuery cycleDB = (.error e, db') ∧
        (∃ s ∈ db'.sessions, s.id = throwEnv.sessionId ∧ s.status = .failed ∧
          s.errors.getLast? = some e) ∧
        ∃ q' ∈ db'.queries, q'.id = cycleQuery.id ∧ q'.status = .failed) :=
  crawl_terminal_states throwEnv cycleQuery cycleDB ⟨cycleQuery, by decide, rfl⟩

/-- C10: persistence lookup by DOI is case-sensitive, unlike in-memory
deduplication which lower-cases DOIs: when the store's only DOI match
differs in letter case and no exact title match exists, reconciliation
finds nothing and inserts a second Paper — while the in-memory engine
would have merged the same two records into one. -/
theorem persistence_doi_case_sensitive (now : String) (db : DB) (p q0 : Paper)
    (d0 d1 : String) (hq0 : q0 ∈ db.papers) (hd0 : q0.doi = some d0)
    (hd1 : p.doi = some d1) (hne : d0 ≠ d1) (hcase : lowerStr d0 = lowerStr d1)
    (hdoi : ∀ r ∈ db.papers, r.doi ≠ p.doi)
    (htitle : ∀ r ∈ db.papers, r.title ≠ p.title)
    (hid : ∀ r ∈ db.papers, r.id ≠ p.id) (qid : String) (dep : Nat) :
    (savePaperWithRelation now db p qid dep).papers = db.papers ++ [p]
    ∧ dedupKey q0 = dedupKey p
    ∧ deduplicatePapers [q0, p] = [mergePaperData q0 p] := by
  have hd0ne : d0 ≠ "" := by
    intro hc
    subst hc
    exact hne (lowerStr_eq_empty (by rw [← hcase]; rfl)).symm
  have hd1ne : d1 ≠ "" := by
    intro hc
    subst hc
    exact hne (lowerStr_eq_empty (by rw [hcase]; rfl))
  have hkey : dedupKey q0 = dedupKey p := by
    rw [dedupKey_doi hd0 hd0ne, dedupKey_doi hd1 hd1ne, hcase]
  refine ⟨?_, hkey, ?_⟩
  · have hfd : findPaperByDOI db d1 = none := by
      unfold findPaperByDOI
      refine firstWhere_eq_none (fun r hr => ?_)
      rw [← hd1]
      exact fun hc => hdoi r hr hc
    have hft : findPaperByTitle db p.title = none := by
      unfold findPaperByTitle
      exact firstWhere_eq_none (fun r hr => htitle r hr)
    have hlk : lookupExisting db p = none := by
      unfold lookupExisting
      rw [hd1]
      show ((if d1 = "" then none else findPaperByDOI db d1)
        <|> findPaperByTitle db p.title) = none
      rw [if_neg hd1ne, hfd, hft]
      rfl
    unfold savePaperWithRelation
    rw [hlk, linkPaperToQuery_papers]
    exact upsertBy_not_found p (fun r hr hc => hid r hr hc)
  · have hstep1 : dedupStep [] q0 = [(dedupKey q0, q0)] := by
      unfold dedupStep
      rw [if_neg (by simp)]
      rfl
    have hmem : dedupKey p ∈ ([(dedupKey q0, q0)].map Prod.fst) := by
      simp [hkey.symm]
    have hstep2 : dedupStep [(dedupKey q0, q0)] p
        = [(dedupKey q0, mergePaperData q0 p)] := by
      unfold dedupStep
      rw [if_pos hmem]
      simp [hkey]
    show (([q0, p].foldl dedupStep []).map Prod.snd) = [mergePaperData q0 p]
    rw [show [q0, p].foldl dedupStep [] = dedupStep (dedupStep [] q0) p from rfl,
      hstep1, hstep2]
    rfl

/-- C10 witness: a store holding the DOI only in upper case misses the
lower-cased fetch and ends with two Papers for the same work. -/
theorem persistence_doi_case_sensitive_witness :
    (savePaperWithRelation "t1" storeDB freshPaper "q9" 0).papers
        = storeDB.papers ++ [freshPaper]
    ∧ dedupKey storedPaper = dedupKey freshPaper
    ∧ deduplicatePapers [storedPaper, freshPaper]
        = [mergePaperData storedPaper freshPaper] :=
  persistence_doi_case_sensitive "t1" storeDB freshPaper storedPaper
    "10.1/ABC" "10.1/abc" (by decide) rfl rfl (by decide) (by decide)
    (by decide) (by decide) (by decide) "q9" 0

end ScopusCrawler
